import Mathlib

/-!
Verification of the retraining-scheduler / model-versioning core of the
CustomerChurnPredictor repository.

The Python sources under `backend/app/services/` are shallowly embedded as
executable Lean definitions:

* `model_versioning.py` (`ModelVersionManager`) — version metadata is a list of
  `VersionMeta` records plus the set of version directories that exist on disk
  (`VMState.fsDirs`).  Timestamps are modelled as natural numbers counting
  microseconds of UTC time; `version_id` is derived from the timestamp at
  second granularity exactly as `timestamp.strftime("%Y%m%d_%H%M%S")` is
  (two timestamps in the same second yield the same id and hence the same
  version directory).
* `data_export.py` (`export_labeled_data_to_csv`) — the customer/label join is
  a list of labelled rows; the function is embedded as a total function into
  `Except String ExportStats`.
* `model_interface.py` (`retrain_model`) — only its filesystem effects matter
  to the claims about artifact handling, so it is embedded as the sequence of
  artifact writes it performs together with a success flag.
* `scheduler_service.py` (`IntegratedRetrainingScheduler.retrain_job`,
  `init_scheduler`) — the scheduler state is `SchedState`; one cycle's
  interactions with its collaborators (database stats, exporter, trainer,
  version manager, clock) are an oracle `CycleEnv`, and `retrain_job` is a
  total function returning the new state plus an observation log `JobLog`.
-/

/-! ## Model Version Manager (`model_versioning.py`) -/

/-- A Python dict mapping metric names to float values, modelled as an
association list over `ℚ` (only zero-versus-nonzero and lookup behaviour of
the float values is ever used by the embedded code). -/
def MetricsDict : Type := List (String × ℚ)
deriving DecidableEq

/-- `d.get(k)` on a Python dict: first binding of the key, else `None`. -/
def dictGet (d : MetricsDict) (k : String) : Option ℚ :=
  match d.find? (fun p => p.1 = k) with
  | some p => some p.2
  | none => none

/-- `version_id = timestamp.strftime("%Y%m%d_%H%M%S")`: the second-granularity
identifier derived from a microsecond-resolution timestamp. -/
def versionIdOf (ts : Nat) : Nat := ts / 1000000

/-- One entry of `versions_metadata.json`: `model_path`/`scaler_path` live in
the version directory `v_<version_id>`, abstracted as the directory id `dir`. -/
structure VersionMeta where
  version_id : Nat
  timestamp : Nat
  dir : Nat
  metrics : MetricsDict
  training_info : MetricsDict
deriving DecidableEq

/-- Insert a record into a list kept in descending `timestamp` order, placing
it after all strictly-newer records and before equal-or-older ones.  Folding
this over a list reproduces the result of Python's stable
`list.sort(key=..., reverse=True)`. -/
def insertByTsDesc (m : VersionMeta) : List VersionMeta → List VersionMeta
  | [] => [m]
  | x :: xs =>
    if m.timestamp < x.timestamp then x :: insertByTsDesc m xs
    else m :: x :: xs

/-- Stable sort, descending by `timestamp` — the
`metadata["versions"].sort(key=lambda v: v["timestamp"], reverse=True)` step. -/
def sortByTsDesc : List VersionMeta → List VersionMeta
  | [] => []
  | x :: xs => insertByTsDesc x (sortByTsDesc xs)

/-- `version_dir.mkdir(exist_ok=True)`: the directory set after creating `d`. -/
def mkdirDir (fs : List Nat) (d : Nat) : List Nat :=
  if d ∈ fs then fs else d :: fs

/-- `if old_dir.exists(): shutil.rmtree(old_dir)`: the directory set after
removing `d`. -/
def rmtreeDir (fs : List Nat) (d : Nat) : List Nat :=
  fs.filter (fun x => x ≠ d)

/-- State of a `ModelVersionManager`: the version list stored in
`versions_metadata.json`, the set of existing version directories, and the
retention cap `max_versions`. -/
structure VMState where
  versions : List VersionMeta
  fsDirs : List Nat
  max_versions : Nat
deriving DecidableEq

/-- A fresh manager over an empty `versions/` directory. -/
def vmInit (maxV : Nat) : VMState := ⟨[], [], maxV⟩

/-- `ModelVersionManager.save_new_version` (success path): create the version
directory named by the second-granularity id, copy both artifacts into it,
append the metadata entry, re-sort descending by timestamp, and if the list
exceeds `max_versions` delete the evicted entries' directories and truncate
the list. -/
def save_new_version (st : VMState) (ts : Nat) (metrics training_info : MetricsDict) :
    VMState × VersionMeta :=
  let vid := versionIdOf ts
  let fs1 := mkdirDir st.fsDirs vid
  let vm : VersionMeta := ⟨vid, ts, vid, metrics, training_info⟩
  let sorted := sortByTsDesc (st.versions ++ [vm])
  if st.max_versions < sorted.length then
    let evicted := sorted.drop st.max_versions
    let fs2 := evicted.foldl (fun fs old => rmtreeDir fs old.dir) fs1
    ({ st with versions := sorted.take st.max_versions, fsDirs := fs2 }, vm)
  else
    ({ st with versions := sorted, fsDirs := fs1 }, vm)

/-- `ModelVersionManager.get_latest_version`: head of the stored list. -/
def get_latest_version (st : VMState) : Option VersionMeta :=
  st.versions.head?

/-- `ModelVersionManager.list_versions`. -/
def list_versions (st : VMState) : List VersionMeta :=
  st.versions

/-- Python's `a or b` applied to two `dict.get` results: `b` when `a` is
falsy (`None` or `0.0`), otherwise `a`. -/
def pyOr (a b : Option ℚ) : Option ℚ :=
  match a with
  | none => b
  | some x => if x = 0 then b else some x

/-- One entry produced by `get_version_summary`. -/
structure VersionSummary where
  version_id : Nat
  timestamp : Nat
  accuracy : Option ℚ
  auc : Option ℚ
  recall' : Option ℚ
  precision : Option ℚ
  samples : Option ℚ
deriving DecidableEq

/-- The summary of a single stored version, with the
`metrics.get("val_x") or metrics.get("x")` fallback of the source. -/
def summarize (v : VersionMeta) : VersionSummary :=
  { version_id := v.version_id
    timestamp := v.timestamp
    accuracy := pyOr (dictGet v.metrics "val_accuracy") (dictGet v.metrics "accuracy")
    auc := pyOr (dictGet v.metrics "val_auc") (dictGet v.metrics "auc")
    recall' := pyOr (dictGet v.metrics "val_recall") (dictGet v.metrics "recall")
    precision := pyOr (dictGet v.metrics "val_precision") (dictGet v.metrics "precision")
    samples := dictGet v.training_info "total_samples" }

/-- `ModelVersionManager.get_version_summary`. -/
def get_version_summary (st : VMState) : List VersionSummary :=
  (list_versions st).map summarize

/-- The arguments of one `save_new_version` call. -/
structure SaveCall where
  ts : Nat
  metrics : MetricsDict
  training_info : MetricsDict
deriving DecidableEq

/-- Run a sequence of successful `save_new_version` calls. -/
def foldSaves (st : VMState) (calls : List SaveCall) : VMState :=
  calls.foldl (fun s c => (save_new_version s c.ts c.metrics c.training_info).1) st

/-! ## Labeled-Data Exporter (`data_export.py`) -/

/-- One row of the `Customer ⋈ CustomerLabel` join: the label's creation time,
optional update time, and boolean churn target (the feature columns play no
role in the embedded control flow). -/
structure LabelRow where
  created_at : Nat
  updated_at : Option Nat
  target : Bool
deriving DecidableEq

/-- The SQL filter `created_at >= since OR updated_at >= since` (a NULL
`updated_at` makes the second disjunct false). -/
def rowMatches (since : Nat) (r : LabelRow) : Bool :=
  since ≤ r.created_at ||
    (match r.updated_at with
     | some u => since ≤ u
     | none => false)

/-- The statistics dict returned by `export_labeled_data_to_csv`, restricted
to the fields the scheduler consumes. -/
structure ExportStats where
  total_records : Nat
  churned : Nat
  not_churned : Nat
deriving DecidableEq

/-- `export_labeled_data_to_csv`: query the join, filter it when `since` is
given and `include_all` is false, raise `ValueError` on an empty full export,
and otherwise report the row statistics (the CSV itself is written only when
at least one row matched). -/
def export_labeled_data_to_csv (db : List LabelRow) (since : Option Nat)
    (include_all : Bool) : Except String ExportStats :=
  let results :=
    match since, include_all with
    | some s, false => db.filter (rowMatches s)
    | _, _ => db
  match results with
  | [] =>
    if include_all then .error "No labeled customer data found in database"
    else .ok ⟨0, 0, 0⟩
  | rs =>
    let churned := (rs.filter (fun r => r.target)).length
    .ok ⟨rs.length, churned, rs.length - churned⟩

/-! ## Trainer artifact effects (`model_interface.py`, `preprocesser.py`) -/

/-- The live artifact locations `MODEL_PATH` and `SCALER_PATH`. -/
inductive ArtifactPath where
  | modelLive
  | scalerLive
deriving DecidableEq

/-- A filesystem operation on artifact locations: a direct write of a path,
or an atomic rename of one path onto another. -/
inductive FsOp where
  | write (p : ArtifactPath)
  | move (src tgt : ArtifactPath)
deriving DecidableEq

/-- Whether an operation is an atomic rename. -/
def FsOp.isMove : FsOp → Bool
  | .move _ _ => true
  | .write _ => false

/-- The ways one `retrain_model` run can go: whether the CSV exists, whether
the `TARGET` column is present, and whether `model.fit` raises. -/
structure TrainEnv where
  readOk : Bool
  targetOk : Bool
  fitOk : Bool
deriving DecidableEq

/-- The artifact-filesystem effects of `retrain_model`, in program order,
paired with whether the run returns normally:
data loading and the `TARGET` check happen first and write nothing;
`preprocess_and_fit(X, scaler_path=SCALER_PATH)` then `joblib.dump`s the new
scaler directly over the live scaler path, before training;
`model.fit` may raise; on success `model.save(MODEL_PATH)` writes the model
directly over the live model path.  There is no temporary location and no
rename anywhere. -/
def retrain_model_ops (env : TrainEnv) : List FsOp × Bool :=
  if !env.readOk then ([], false)
  else if !env.targetOk then ([], false)
  else if !env.fitOk then ([FsOp.write ArtifactPath.scalerLive], false)
  else ([FsOp.write ArtifactPath.scalerLive, FsOp.write ArtifactPath.modelLive], true)

/-! ## Retraining Scheduler (`scheduler_service.py`) -/

/-- The scheduler fields read and written by `retrain_job`: the Flask app
reference, the version manager reference, and the tracking pair
`last_training_time` / `training_count`. -/
structure SchedState where
  hasApp : Bool
  hasVersionManager : Bool
  last_training_time : Option Nat
  training_count : Nat
deriving DecidableEq

/-- The arguments of one `export_labeled_data_to_csv` call made by the
scheduler. -/
structure ExportCall where
  since : Option Nat
  include_all : Bool
deriving DecidableEq

instance {ε α : Type} [DecidableEq ε] [DecidableEq α] : DecidableEq (Except ε α) :=
  fun x y =>
    match x, y with
    | .error a, .error b =>
      if h : a = b then .isTrue (by rw [h]) else .isFalse (by simp [h])
    | .error _, .ok _ => .isFalse (by simp)
    | .ok _, .error _ => .isFalse (by simp)
    | .ok a, .ok b =>
      if h : a = b then .isTrue (by rw [h]) else .isFalse (by simp [h])

/-- One cycle's interactions with the scheduler's collaborators:
`startTime` is the `datetime.now()` used to name the temporary CSV when the
job begins; `statsTotalLabels` is the (fallible) `get_labeled_data_stats`
call's `total_labels`; `exportResult` is the (fallible) export call's result;
`trainerOk` is whether `retrain_model` returns; `versioningOk` is whether
`save_new_version` returns rather than raising; `cleanupFails` is whether the
best-effort `os.remove` of the snapshot raises; `now` is the
`datetime.utcnow()` read after training when the tracking pair is updated. -/
structure CycleEnv where
  startTime : Nat
  statsTotalLabels : Except Unit Nat
  exportResult : Except Unit ExportStats
  trainerOk : Bool
  versioningOk : Bool
  cleanupFails : Bool
  now : Nat
deriving DecidableEq

/-- How one `retrain_job` invocation ended. -/
inductive JobOutcome where
  | noApp
  | noLabels
  | noNewData
  | completed
  | failedStats
  | failedExport
  | failedTrainer
deriving DecidableEq

/-- Observations of one `retrain_job` invocation: the branch taken, the
temporary CSV name (when one was chosen), the export call made (when one was
made), whether the trainer and the version manager were invoked, whether a
version was saved, whether the snapshot file exists after the job, and
whether an exception escaped `retrain_job` (the outer `except` makes this
always false). -/
structure JobLog where
  outcome : JobOutcome
  tempName : Option Nat
  exportCall : Option ExportCall
  trainerInvoked : Bool
  versionAttempted : Bool
  versionSaved : Bool
  snapshotExists : Bool
  raisedOut : Bool
deriving DecidableEq

/-- `IntegratedRetrainingScheduler.retrain_job`.  Mirrors the source branch
for branch: missing app → plain return; `total_labels == 0` → plain return;
export mode chosen from `last_training_time`; zero exported rows → remove the
(never-created) snapshot and return; trainer exception → caught by the outer
handler with no state change (nothing mutates the tracking pair before the
update lines); `save_new_version` exception → caught by the *inner* handler
and logged as a warning only; then `last_training_time := utcnow()` and
`training_count += 1` unconditionally on this path; finally best-effort
snapshot cleanup.  Exceptions never escape: every `raise` lands in a handler
inside the function, so the result's `raisedOut` is false in every branch. -/
def retrain_job (st : SchedState) (env : CycleEnv) : SchedState × JobLog :=
  if !st.hasApp then
    (st, ⟨.noApp, none, none, false, false, false, false, false⟩)
  else
    match env.statsTotalLabels with
    | .error _ => (st, ⟨.failedStats, none, none, false, false, false, false, false⟩)
    | .ok totalLabels =>
      if totalLabels = 0 then
        (st, ⟨.noLabels, none, none, false, false, false, false, false⟩)
      else
        let tempName := env.startTime
        let exportCall : ExportCall :=
          match st.last_training_time with
          | none => ⟨none, true⟩
          | some t => ⟨some t, false⟩
        match env.exportResult with
        | .error _ =>
          (st, ⟨.failedExport, some tempName, some exportCall, false, false, false, false,
            false⟩)
        | .ok ex =>
          if ex.total_records = 0 then
            (st, ⟨.noNewData, some tempName, some exportCall, false, false, false, false,
              false⟩)
          else if !env.trainerOk then
            (st, ⟨.failedTrainer, some tempName, some exportCall, true, false, false, true,
              false⟩)
          else
            let versionAttempted := st.hasVersionManager
            let versionSaved := st.hasVersionManager && env.versioningOk
            let st' := { st with last_training_time := some env.now,
                                 training_count := st.training_count + 1 }
            (st', ⟨.completed, some tempName, some exportCall, true, versionAttempted,
              versionSaved, env.cleanupFails, false⟩)

/-- `init_scheduler`'s state-restoration step (lines 249-259): when a latest
version exists, set `last_training_time` from its timestamp and
`training_count` to the length of the stored version list. -/
def init_scheduler_restore (vm : VMState) (st : SchedState) : SchedState :=
  match get_latest_version vm with
  | none => st
  | some v =>
    { st with last_training_time := some v.timestamp,
              training_count := (list_versions vm).length }

/-- Invariant of a `ModelVersionManager` state reached by successful saves
whose version ids never collide: the stored list respects the retention cap,
is sorted descending by timestamp, no two entries share a version directory,
every entry's directory is the id derived from its timestamp and exists on
disk, and every existing version directory backs some listed entry. -/
def vmGood (st : VMState) : Prop :=
  st.versions.length ≤ st.max_versions ∧
  st.versions.Pairwise (fun a b => b.timestamp ≤ a.timestamp) ∧
  (st.versions.map (fun v => v.dir)).Nodup ∧
  (∀ v ∈ st.versions, v.dir = versionIdOf v.timestamp ∧ v.dir ∈ st.fsDirs) ∧
  (∀ d ∈ st.fsDirs, ∃ v ∈ st.versions, v.dir = d)

/-! ## Helper lemmas -/

theorem pyOr_some_nonzero (x : ℚ) (b : Option ℚ) (h : x ≠ 0) :
    pyOr (some x) b = some x := by
  simp [pyOr, h]

theorem pyOr_none_left (b : Option ℚ) : pyOr none b = b := rfl

theorem pyOr_some_zero (b : Option ℚ) : pyOr (some 0) b = b := by
  simp [pyOr]

/-! ## Claims -/

/-- C7: `export_labeled_data_to_csv` raises an error if and only if it is
called with `include_all=True` and zero labeled rows exist; when `since` is
specified and `include_all` is false, zero matching rows is not an error and
the call returns stats with `total_records=0`, `churned=0`, `not_churned=0`. -/
theorem c7_export_error_iff_full_and_empty (db : List LabelRow) (since : Option Nat)
    (include_all : Bool) :
    ((∃ msg, export_labeled_data_to_csv db since include_all = .error msg) ↔
      (include_all = true ∧ db = [])) ∧
    (∀ s, since = some s → include_all = false → db.filter (rowMatches s) = [] →
      export_labeled_data_to_csv db since include_all = .ok ⟨0, 0, 0⟩) := by
  constructor
  · constructor
    · rintro ⟨msg, hmsg⟩
      cases include_all with
      | false =>
        exfalso
        cases since with
        | none =>
          cases db with
          | nil => simp [export_labeled_data_to_csv] at hmsg
          | cons a l => simp [export_labeled_data_to_csv] at hmsg
        | some s =>
          cases hf : db.filter (rowMatches s) with
          | nil => simp [export_labeled_data_to_csv, hf] at hmsg
          | cons a l => simp [export_labeled_data_to_csv, hf] at hmsg
      | true =>
        refine ⟨rfl, ?_⟩
        cases db with
        | nil => rfl
        | cons a l =>
          exfalso
          cases since with
          | none => simp [export_labeled_data_to_csv] at hmsg
          | some s => simp [export_labeled_data_to_csv] at hmsg
    · rintro ⟨hall, hdb⟩
      subst hall; subst hdb
      cases since with
      | none => exact ⟨"No labeled customer data found in database", rfl⟩
      | some s => exact ⟨"No labeled customer data found in database", rfl⟩
  · intro s hs hall hfilter
    subst hs; subst hall
    simp [export_labeled_data_to_csv, hfilter]

theorem c7_witness :
    (∃ msg, export_labeled_data_to_csv [] none true = .error msg) ∧
    export_labeled_data_to_csv [⟨5, none, true⟩] (some 10) false = .ok ⟨0, 0, 0⟩ := by
  constructor
  · exact (c7_export_error_iff_full_and_empty [] none true).1.2 ⟨rfl, rfl⟩
  · exact (c7_export_error_iff_full_and_empty [⟨5, none, true⟩] (some 10) false).2
      10 rfl rfl (by decide)

/-- C9 (counterexample): the claim says the summary reports the
validation-split value whenever the validation metric is present; but for a
stored version whose metrics contain `val_recall = 0.0` alongside
`recall = 3.0`, `get_version_summary` reports `3.0` — the Python `or` falls
back on a present-but-zero validation metric. -/
theorem c9_counterexample :
    dictGet [("val_recall", 0), ("recall", 3)] "val_recall" = some 0 ∧
    ((get_version_summary
        (save_new_version (vmInit 3) 0 [("val_recall", 0), ("recall", 3)] []).1).map
      (fun s => s.recall')) = [some 3] ∧
    (3 : ℚ) ≠ 0 := by
  decide

/-- C9 (amended): for every stored version, `get_version_summary` reports the
validation-split metric value whenever that validation metric is present with
a nonzero value, and falls back to the training-only metric name when the
validation metric is absent or stored as `0.0` (Python `or` tests truthiness,
not presence). -/
theorem c9_amended_metric_fallback (v : VersionMeta) :
    (∀ q, dictGet v.metrics "val_accuracy" = some q → q ≠ 0 →
      (summarize v).accuracy = some q) ∧
    (dictGet v.metrics "val_accuracy" = none →
      (summarize v).accuracy = dictGet v.metrics "accuracy") ∧
    (dictGet v.metrics "val_accuracy" = some 0 →
      (summarize v).accuracy = dictGet v.metrics "accuracy") ∧
    (∀ q, dictGet v.metrics "val_auc" = some q → q ≠ 0 →
      (summarize v).auc = some q) ∧
    (dictGet v.metrics "val_auc" = none →
      (summarize v).auc = dictGet v.metrics "auc") ∧
    (dictGet v.metrics "val_auc" = some 0 →
      (summarize v).auc = dictGet v.metrics "auc") ∧
    (∀ q, dictGet v.metrics "val_recall" = some q → q ≠ 0 →
      (summarize v).recall' = some q) ∧
    (dictGet v.metrics "val_recall" = none →
      (summarize v).recall' = dictGet v.metrics "recall") ∧
    (dictGet v.metrics "val_recall" = some 0 →
      (summarize v).recall' = dictGet v.metrics "recall") ∧
    (∀ q, dictGet v.metrics "val_precision" = some q → q ≠ 0 →
      (summarize v).precision = some q) ∧
    (dictGet v.metrics "val_precision" = none →
      (summarize v).precision = dictGet v.metrics "precision") ∧
    (dictGet v.metrics "val_precision" = some 0 →
      (summarize v).precision = dictGet v.metrics "precision") := by
  refine ⟨?_, ?_, ?_, ?_, ?_, ?_, ?_, ?_, ?_, ?_, ?_, ?_⟩ <;>
    first
      | (intro q hq hne; simp [summarize, hq, pyOr, hne])
      | (intro h; simp [summarize, h, pyOr])

theorem c9_witness :
    (summarize ⟨0, 0, 0,
        [("val_accuracy", 7), ("val_auc", 0), ("auc", 9), ("val_precision", 4)],
        []⟩).accuracy = some 7 ∧
    (summarize ⟨0, 0, 0,
        [("val_accuracy", 7), ("val_auc", 0), ("auc", 9), ("val_precision", 4)],
        []⟩).auc = some 9 ∧
    (summarize ⟨0, 0, 0,
        [("val_accuracy", 7), ("val_auc", 0), ("auc", 9), ("val_precision", 4)],
        []⟩).recall' = none ∧
    (summarize ⟨0, 0, 0,
        [("val_accuracy", 7), ("val_auc", 0), ("auc", 9), ("val_precision", 4)],
        []⟩).precision = some 4 := by
  obtain ⟨h1, h2, h3, h4, h5, h6, h7, h8, h9, h10, h11, h12⟩ :=
    c9_amended_metric_fallback ⟨0, 0, 0,
      [("val_accuracy", 7), ("val_auc", 0), ("auc", 9), ("val_precision", 4)], []⟩
  refine ⟨h1 7 (by decide) (by norm_num), ?_, ?_, h10 4 (by decide) (by norm_num)⟩
  · rw [h6 (by decide)]; decide
  · rw [h8 (by decide)]; decide

/-- C2: the claim (the spec's invariant) says the live model and scaler
artifacts are replaced together or not at all; the code violates it — on a
cycle where preprocessing succeeds and `model.fit` raises, the live scaler
has already been overwritten by `preprocess_and_fit` while the live model is
untouched.  This theorem evaluates the embedded `retrain_model` at that
failing input. -/
theorem c2_scaler_updated_without_model :
    (retrain_model_ops ⟨true, true, false⟩).1 = [FsOp.write ArtifactPath.scalerLive] ∧
    (retrain_model_ops ⟨true, true, false⟩).2 = false ∧
    FsOp.write ArtifactPath.scalerLive ∈ (retrain_model_ops ⟨true, true, false⟩).1 ∧
    FsOp.write ArtifactPath.modelLive ∉ (retrain_model_ops ⟨true, true, false⟩).1 := by
  decide

/-- C6 (counterexample): the claim says a successful training run writes the
new artifacts to a temporary location and atomically swaps them into the
serving path; but the run's effect trace writes both live paths directly and
contains no rename at all. -/
theorem c6_counterexample :
    (retrain_model_ops ⟨true, true, true⟩).2 = true ∧
    FsOp.write ArtifactPath.scalerLive ∈ (retrain_model_ops ⟨true, true, true⟩).1 ∧
    FsOp.write ArtifactPath.modelLive ∈ (retrain_model_ops ⟨true, true, true⟩).1 ∧
    ((retrain_model_ops ⟨true, true, true⟩).1.all (fun op => !op.isMove)) = true := by
  decide

/-- C6 (amended): `retrain_model` never uses a temporary location or an
atomic rename: every artifact operation it performs is a direct in-place
write of a live path (the scaler during preprocessing, the model at save),
and a fully successful run writes the live scaler and then the live model. -/
theorem c6_amended_in_place_overwrite :
    (∀ env : TrainEnv,
      ((retrain_model_ops env).1.all (fun op => !op.isMove)) = true ∧
      ((retrain_model_ops env).1.all (fun op =>
        (op == FsOp.write ArtifactPath.scalerLive) ||
        (op == FsOp.write ArtifactPath.modelLive))) = true) ∧
    (retrain_model_ops ⟨true, true, true⟩).1 =
      [FsOp.write ArtifactPath.scalerLive, FsOp.write ArtifactPath.modelLive] := by
  refine ⟨?_, by decide⟩
  rintro ⟨r, t, f⟩
  cases r <;> cases t <;> cases f <;> decide

/-! ## Scheduler reduction lemmas -/

theorem retrain_job_success_eq (st : SchedState) (env : CycleEnv) (n : Nat)
    (ex : ExportStats)
    (happ : st.hasApp = true)
    (hstats : env.statsTotalLabels = .ok n) (hn : n ≠ 0)
    (hexp : env.exportResult = .ok ex) (hrec : ex.total_records ≠ 0)
    (htr : env.trainerOk = true) :
    retrain_job st env =
      ({ st with last_training_time := some env.now,
                 training_count := st.training_count + 1 },
       ⟨.completed, some env.startTime,
        some (match st.last_training_time with
              | none => ⟨none, true⟩
              | some t => ⟨some t, false⟩),
        true, st.hasVersionManager, st.hasVersionManager && env.versioningOk,
        env.cleanupFails, false⟩) := by
  simp [retrain_job, happ, hstats, hn, hexp, hrec, htr]

theorem retrain_job_trainer_fail_eq (st : SchedState) (env : CycleEnv) (n : Nat)
    (ex : ExportStats)
    (happ : st.hasApp = true)
    (hstats : env.statsTotalLabels = .ok n) (hn : n ≠ 0)
    (hexp : env.exportResult = .ok ex) (hrec : ex.total_records ≠ 0)
    (htr : env.trainerOk = false) :
    retrain_job st env =
      (st, ⟨.failedTrainer, some env.startTime,
        some (match st.last_training_time with
              | none => ⟨none, true⟩
              | some t => ⟨some t, false⟩),
        true, false, false, true, false⟩) := by
  simp [retrain_job, happ, hstats, hn, hexp, hrec, htr]

theorem retrain_job_noNewData_eq (st : SchedState) (env : CycleEnv) (n : Nat)
    (ex : ExportStats)
    (happ : st.hasApp = true)
    (hstats : env.statsTotalLabels = .ok n) (hn : n ≠ 0)
    (hexp : env.exportResult = .ok ex) (hrec : ex.total_records = 0) :
    retrain_job st env =
      (st, ⟨.noNewData, some env.startTime,
        some (match st.last_training_time with
              | none => ⟨none, true⟩
              | some t => ⟨some t, false⟩),
        false, false, false, false, false⟩) := by
  simp [retrain_job, happ, hstats, hn, hexp, hrec]

theorem retrain_job_state_cases (st : SchedState) (env : CycleEnv) :
    ((retrain_job st env).1 = st ∧ (retrain_job st env).2.outcome ≠ .completed) ∨
    ((retrain_job st env).2.outcome = .completed ∧
      (retrain_job st env).1 =
        { st with last_training_time := some env.now,
                  training_count := st.training_count + 1 }) := by
  obtain ⟨app, hvm, ltt, cnt⟩ := st
  obtain ⟨stT, stats, expR, tr, ver, cl, nw⟩ := env
  cases app with
  | false => left; exact ⟨rfl, by simp [retrain_job]⟩
  | true =>
    cases stats with
    | error e => left; exact ⟨by simp [retrain_job], by simp [retrain_job]⟩
    | ok n =>
      by_cases hn : n = 0
      · left; exact ⟨by simp [retrain_job, hn], by simp [retrain_job, hn]⟩
      · cases expR with
        | error e => left; exact ⟨by simp [retrain_job, hn], by simp [retrain_job, hn]⟩
        | ok ex =>
          by_cases hrec : ex.total_records = 0
          · left
            exact ⟨by simp [retrain_job, hn, hrec], by simp [retrain_job, hn, hrec]⟩
          · cases tr with
            | false =>
              left
              exact ⟨by simp [retrain_job, hn, hrec], by simp [retrain_job, hn, hrec]⟩
            | true =>
              right
              exact ⟨by simp [retrain_job, hn, hrec], by simp [retrain_job, hn, hrec]⟩

/-- C1 (counterexample): the claim says a `save_new_version` failure leaves
`last_training_time` and `training_count` unchanged; but in a cycle where
training succeeded and versioning raised, `retrain_job` advances both — the
inner handler swallows the versioning error. -/
theorem c1_counterexample :
    (retrain_job ⟨true, true, some 2, 5⟩ ⟨3, .ok 8, .ok ⟨4, 2, 2⟩, true, false, false,
        9⟩).2.versionAttempted = true ∧
    (retrain_job ⟨true, true, some 2, 5⟩ ⟨3, .ok 8, .ok ⟨4, 2, 2⟩, true, false, false,
        9⟩).2.versionSaved = false ∧
    (retrain_job ⟨true, true, some 2, 5⟩ ⟨3, .ok 8, .ok ⟨4, 2, 2⟩, true, false, false,
        9⟩).1.training_count = 6 ∧
    (retrain_job ⟨true, true, some 2, 5⟩ ⟨3, .ok 8, .ok ⟨4, 2, 2⟩, true, false, false,
        9⟩).1.last_training_time = some 9 := by
  decide

/-- C1 (amended): if `save_new_version` raises during a retraining cycle, the
error does surface from the version manager into `retrain_job`, but there it
is caught by the inner handler and logged as a warning only; the cycle still
advances `last_training_time` and `training_count` exactly as if versioning
had succeeded, and no exception escapes `retrain_job`. -/
theorem c1_amended_versioning_failure_still_advances (st : SchedState) (env : CycleEnv)
    (n : Nat) (ex : ExportStats)
    (happ : st.hasApp = true) (hvm : st.hasVersionManager = true)
    (hstats : env.statsTotalLabels = .ok n) (hn : n ≠ 0)
    (hexp : env.exportResult = .ok ex) (hrec : ex.total_records ≠ 0)
    (htr : env.trainerOk = true) (hver : env.versioningOk = false) :
    (retrain_job st env).2.versionAttempted = true ∧
    (retrain_job st env).2.versionSaved = false ∧
    (retrain_job st env).1.training_count = st.training_count + 1 ∧
    (retrain_job st env).1.last_training_time = some env.now ∧
    (retrain_job st env).2.raisedOut = false := by
  rw [retrain_job_success_eq st env n ex happ hstats hn hexp hrec htr]
  simp [hvm, hver]

theorem c1_witness :
    (retrain_job ⟨true, true, none, 0⟩ ⟨1, .ok 5, .ok ⟨5, 2, 3⟩, true, false, false,
        4⟩).2.versionAttempted = true ∧
    (retrain_job ⟨true, true, none, 0⟩ ⟨1, .ok 5, .ok ⟨5, 2, 3⟩, true, false, false,
        4⟩).2.versionSaved = false ∧
    (retrain_job ⟨true, true, none, 0⟩ ⟨1, .ok 5, .ok ⟨5, 2, 3⟩, true, false, false,
        4⟩).1.training_count = 0 + 1 ∧
    (retrain_job ⟨true, true, none, 0⟩ ⟨1, .ok 5, .ok ⟨5, 2, 3⟩, true, false, false,
        4⟩).1.last_training_time = some 4 ∧
    (retrain_job ⟨true, true, none, 0⟩ ⟨1, .ok 5, .ok ⟨5, 2, 3⟩, true, false, false,
        4⟩).2.raisedOut = false :=
  c1_amended_versioning_failure_still_advances ⟨true, true, none, 0⟩
    ⟨1, .ok 5, .ok ⟨5, 2, 3⟩, true, false, false, 4⟩ 5 ⟨5, 2, 3⟩
    rfl rfl rfl (by decide) rfl (by decide) rfl rfl

/-- C3 (counterexample): the claim says a successful cycle sets
`last_training_time` to the cycle's start time; in this fully successful
cycle the job began at time 5 (the timestamp naming the snapshot) but
`last_training_time` is set to 7, the `utcnow()` read after training. -/
theorem c3_counterexample :
    (retrain_job ⟨true, true, none, 0⟩ ⟨5, .ok 10, .ok ⟨3, 1, 2⟩, true, true, false,
        7⟩).2.outcome = JobOutcome.completed ∧
    (retrain_job ⟨true, true, none, 0⟩ ⟨5, .ok 10, .ok ⟨3, 1, 2⟩, true, true, false,
        7⟩).2.versionSaved = true ∧
    (retrain_job ⟨true, true, none, 0⟩ ⟨5, .ok 10, .ok ⟨3, 1, 2⟩, true, true, false,
        7⟩).2.tempName = some 5 ∧
    (retrain_job ⟨true, true, none, 0⟩ ⟨5, .ok 10, .ok ⟨3, 1, 2⟩, true, true, false,
        7⟩).1.last_training_time = some 7 ∧
    (retrain_job ⟨true, true, none, 0⟩ ⟨5, .ok 10, .ok ⟨3, 1, 2⟩, true, true, false,
        7⟩).1.last_training_time ≠ some 5 := by
  decide

theorem retrain_job_fst_versioning_irrel (st : SchedState) (env : CycleEnv) (b : Bool) :
    (retrain_job st { env with versioningOk := b }).1 = (retrain_job st env).1 := by
  obtain ⟨app, hvm, ltt, cnt⟩ := st
  obtain ⟨stT, stats, expR, tr, ver, cl, nw⟩ := env
  cases app with
  | false => rfl
  | true =>
    cases stats with
    | error e => rfl
    | ok n =>
      by_cases hn : n = 0
      · simp [retrain_job, hn]
      · cases expR with
        | error e => simp [retrain_job, hn]
        | ok ex =>
          by_cases hrec : ex.total_records = 0
          · simp [retrain_job, hn, hrec]
          · cases tr <;> simp [retrain_job, hn, hrec]

/-- C3 (amended): every cycle either leaves the scheduler state unchanged or
completes and sets `last_training_time` to the cycle's *completion* time
(the `utcnow()` read after training) while incrementing `training_count`;
under a monotone clock `last_training_time` is non-decreasing; and the
resulting state is independent of whether the versioning step succeeded. -/
theorem c3_amended_completion_time_monotone (st : SchedState) (env : CycleEnv) :
    ((retrain_job st env).1 = st ∨
      ((retrain_job st env).2.outcome = JobOutcome.completed ∧
       (retrain_job st env).1.training_count = st.training_count + 1 ∧
       (retrain_job st env).1.last_training_time = some env.now)) ∧
    ((∀ t, st.last_training_time = some t → t ≤ env.now) →
      ∀ t, st.last_training_time = some t →
        ∃ u, (retrain_job st env).1.last_training_time = some u ∧ t ≤ u) ∧
    (∀ b, (retrain_job st { env with versioningOk := b }).1 = (retrain_job st env).1) := by
  refine ⟨?_, ?_, ?_⟩
  · rcases retrain_job_state_cases st env with ⟨h, _⟩ | ⟨ho, h⟩
    · exact Or.inl h
    · exact Or.inr ⟨ho, by rw [h], by rw [h]⟩
  · intro hclock t ht
    rcases retrain_job_state_cases st env with ⟨h, _⟩ | ⟨_, h⟩
    · exact ⟨t, by rw [h]; exact ht, le_refl t⟩
    · exact ⟨env.now, by rw [h], hclock t ht⟩
  · intro b
    exact retrain_job_fst_versioning_irrel st env b

theorem c3_witness :
    (∃ u, (retrain_job ⟨true, true, some 3, 1⟩
        ⟨6, .ok 4, .ok ⟨2, 1, 1⟩, true, true, false, 8⟩).1.last_training_time = some u ∧
      3 ≤ u) ∧
    (retrain_job ⟨true, true, some 3, 1⟩
        { (⟨6, .ok 4, .ok ⟨2, 1, 1⟩, true, true, false, 8⟩ : CycleEnv) with
          versioningOk := false }).1 =
      (retrain_job ⟨true, true, some 3, 1⟩
        ⟨6, .ok 4, .ok ⟨2, 1, 1⟩, true, true, false, 8⟩).1 := by
  constructor
  · exact (c3_amended_completion_time_monotone ⟨true, true, some 3, 1⟩
      ⟨6, .ok 4, .ok ⟨2, 1, 1⟩, true, true, false, 8⟩).2.1
      (by intro t ht; cases ht; decide) 3 rfl
  · exact (c3_amended_completion_time_monotone ⟨true, true, some 3, 1⟩
      ⟨6, .ok 4, .ok ⟨2, 1, 1⟩, true, true, false, 8⟩).2.2 false

/-- C4: if the trainer (`retrain_model`) raises on a given cycle, the cycle
aborts with `training_count` and `last_training_time` unchanged, the
exception is not propagated out of `retrain_job` (the outer handler catches
it and the function returns normally), and a subsequent successful cycle
exports data using the original (not advanced) high-water mark. -/
theorem c4_trainer_failure_isolated (st : SchedState) (env1 env2 : CycleEnv)
    (t0 n1 n2 : Nat) (ex1 ex2 : ExportStats)
    (happ : st.hasApp = true) (hltt : st.last_training_time = some t0)
    (h1s : env1.statsTotalLabels = .ok n1) (h1n : n1 ≠ 0)
    (h1e : env1.exportResult = .ok ex1) (h1r : ex1.total_records ≠ 0)
    (h1t : env1.trainerOk = false)
    (h2s : env2.statsTotalLabels = .ok n2) (h2n : n2 ≠ 0)
    (h2e : env2.exportResult = .ok ex2) (h2r : ex2.total_records ≠ 0)
    (h2t : env2.trainerOk = true) :
    (retrain_job st env1).1 = st ∧
    (retrain_job st env1).2.outcome = JobOutcome.failedTrainer ∧
    (retrain_job st env1).2.raisedOut = false ∧
    (retrain_job st env1).2.trainerInvoked = true ∧
    (retrain_job st env1).2.versionAttempted = false ∧
    (retrain_job (retrain_job st env1).1 env2).2.exportCall = some ⟨some t0, false⟩ ∧
    (retrain_job (retrain_job st env1).1 env2).2.outcome = JobOutcome.completed := by
  have h1 := retrain_job_trainer_fail_eq st env1 n1 ex1 happ h1s h1n h1e h1r h1t
  have h2 := retrain_job_success_eq st env2 n2 ex2 happ h2s h2n h2e h2r h2t
  rw [h1]
  simp [h2, hltt]

theorem c4_witness :
    (retrain_job ⟨true, true, some 11, 2⟩
        ⟨12, .ok 7, .ok ⟨3, 1, 2⟩, false, true, false, 13⟩).1 = ⟨true, true, some 11, 2⟩ ∧
    (retrain_job ⟨true, true, some 11, 2⟩
        ⟨12, .ok 7, .ok ⟨3, 1, 2⟩, false, true, false, 13⟩).2.outcome =
      JobOutcome.failedTrainer ∧
    (retrain_job ⟨true, true, some 11, 2⟩
        ⟨12, .ok 7, .ok ⟨3, 1, 2⟩, false, true, false, 13⟩).2.raisedOut = false ∧
    (retrain_job ⟨true, true, some 11, 2⟩
        ⟨12, .ok 7, .ok ⟨3, 1, 2⟩, false, true, false, 13⟩).2.trainerInvoked = true ∧
    (retrain_job ⟨true, true, some 11, 2⟩
        ⟨12, .ok 7, .ok ⟨3, 1, 2⟩, false, true, false, 13⟩).2.versionAttempted = false ∧
    (retrain_job (retrain_job ⟨true, true, some 11, 2⟩
        ⟨12, .ok 7, .ok ⟨3, 1, 2⟩, false, true, false, 13⟩).1
        ⟨14, .ok 9, .ok ⟨4, 2, 2⟩, true, true, false, 15⟩).2.exportCall =
      some ⟨some 11, false⟩ ∧
    (retrain_job (retrain_job ⟨true, true, some 11, 2⟩
        ⟨12, .ok 7, .ok ⟨3, 1, 2⟩, false, true, false, 13⟩).1
        ⟨14, .ok 9, .ok ⟨4, 2, 2⟩, true, true, false, 15⟩).2.outcome =
      JobOutcome.completed :=
  c4_trainer_failure_isolated ⟨true, true, some 11, 2⟩
    ⟨12, .ok 7, .ok ⟨3, 1, 2⟩, false, true, false, 13⟩
    ⟨14, .ok 9, .ok ⟨4, 2, 2⟩, true, true, false, 15⟩
    11 7 9 ⟨3, 1, 2⟩ ⟨4, 2, 2⟩
    rfl rfl rfl (by decide) rfl (by decide) rfl rfl (by decide) rfl (by decide) rfl

/-- C8: for every scheduler state with `last_training_time` set, if the
incremental export reports `total_records = 0` then `retrain_job` returns
without invoking the trainer, without attempting a version save, without
changing `last_training_time` or `training_count`, and no snapshot file
remains after the job (the export wrote no CSV for zero rows, and the
cleanup's existence check finds nothing to delete). -/
theorem c8_empty_window_short_circuit (st : SchedState) (env : CycleEnv)
    (t n : Nat) (ex : ExportStats)
    (happ : st.hasApp = true) (hltt : st.last_training_time = some t)
    (hstats : env.statsTotalLabels = .ok n) (hn : n ≠ 0)
    (hexp : env.exportResult = .ok ex) (hrec : ex.total_records = 0) :
    (retrain_job st env).1 = st ∧
    (retrain_job st env).2.outcome = JobOutcome.noNewData ∧
    (retrain_job st env).2.trainerInvoked = false ∧
    (retrain_job st env).2.versionAttempted = false ∧
    (retrain_job st env).2.versionSaved = false ∧
    (retrain_job st env).2.snapshotExists = false ∧
    (retrain_job st env).2.exportCall = some ⟨some t, false⟩ := by
  rw [retrain_job_noNewData_eq st env n ex happ hstats hn hexp hrec]
  simp [hltt]

theorem c8_witness :
    (retrain_job ⟨true, true, some 20, 3⟩
        ⟨21, .ok 6, .ok ⟨0, 0, 0⟩, true, true, false, 22⟩).1 = ⟨true, true, some 20, 3⟩ ∧
    (retrain_job ⟨true, true, some 20, 3⟩
        ⟨21, .ok 6, .ok ⟨0, 0, 0⟩, true, true, false, 22⟩).2.outcome =
      JobOutcome.noNewData ∧
    (retrain_job ⟨true, true, some 20, 3⟩
        ⟨21, .ok 6, .ok ⟨0, 0, 0⟩, true, true, false, 22⟩).2.trainerInvoked = false ∧
    (retrain_job ⟨true, true, some 20, 3⟩
        ⟨21, .ok 6, .ok ⟨0, 0, 0⟩, true, true, false, 22⟩).2.versionAttempted = false ∧
    (retrain_job ⟨true, true, some 20, 3⟩
        ⟨21, .ok 6, .ok ⟨0, 0, 0⟩, true, true, false, 22⟩).2.versionSaved = false ∧
    (retrain_job ⟨true, true, some 20, 3⟩
        ⟨21, .ok 6, .ok ⟨0, 0, 0⟩, true, true, false, 22⟩).2.snapshotExists = false ∧
    (retrain_job ⟨true, true, some 20, 3⟩
        ⟨21, .ok 6, .ok ⟨0, 0, 0⟩, true, true, false, 22⟩).2.exportCall =
      some ⟨some 20, false⟩ :=
  c8_empty_window_short_circuit ⟨true, true, some 20, 3⟩
    ⟨21, .ok 6, .ok ⟨0, 0, 0⟩, true, true, false, 22⟩ 20 6 ⟨0, 0, 0⟩
    rfl rfl rfl (by decide) rfl rfl

/-! ## Version-list length lemmas -/

theorem length_insertByTsDesc (m : VersionMeta) (l : List VersionMeta) :
    (insertByTsDesc m l).length = l.length + 1 := by
  induction l with
  | nil => rfl
  | cons x xs ih =>
    by_cases h : m.timestamp < x.timestamp
    · simp [insertByTsDesc, h, ih]
    · simp [insertByTsDesc, h]

theorem length_sortByTsDesc (l : List VersionMeta) :
    (sortByTsDesc l).length = l.length := by
  induction l with
  | nil => rfl
  | cons x xs ih => simp [sortByTsDesc, length_insertByTsDesc, ih]

theorem save_new_version_max_versions (st : VMState) (ts : Nat) (m i : MetricsDict) :
    (save_new_version st ts m i).1.max_versions = st.max_versions := by
  simp only [save_new_version]
  split <;> rfl

theorem save_new_version_versions_length (st : VMState) (ts : Nat) (m i : MetricsDict) :
    (save_new_version st ts m i).1.versions.length
      = min (st.versions.length + 1) st.max_versions := by
  have hs : (sortByTsDesc
      (st.versions ++ [⟨versionIdOf ts, ts, versionIdOf ts, m, i⟩])).length
        = st.versions.length + 1 := by
    rw [length_sortByTsDesc]; simp
  by_cases h : st.max_versions < st.versions.length + 1
  · simp [save_new_version, hs, h, List.length_take]
    omega
  · simp [save_new_version, hs, h]
    omega

theorem foldSaves_versions_length (calls : List SaveCall) :
    ∀ st : VMState, st.versions.length ≤ st.max_versions →
      (foldSaves st calls).versions.length
          = min (st.versions.length + calls.length) st.max_versions ∧
      (foldSaves st calls).max_versions = st.max_versions := by
  induction calls with
  | nil =>
    intro st h
    constructor
    · simp [foldSaves]; omega
    · rfl
  | cons c cs ih =>
    intro st h
    have hstep := save_new_version_versions_length st c.ts c.metrics c.training_info
    have hmax := save_new_version_max_versions st c.ts c.metrics c.training_info
    have hfold : foldSaves st (c :: cs)
        = foldSaves (save_new_version st c.ts c.metrics c.training_info).1 cs := rfl
    rw [hfold]
    have hle : (save_new_version st c.ts c.metrics c.training_info).1.versions.length
        ≤ (save_new_version st c.ts c.metrics c.training_info).1.max_versions := by
      rw [hstep, hmax]; omega
    obtain ⟨h1, h2⟩ := ih _ hle
    rw [h1, h2, hstep, hmax]
    refine ⟨by simp; omega, rfl⟩

/-- C10: on restart with at least one stored version, `init_scheduler`
reconstructs `training_count` as the number of retained versions, which
pruning caps at `max_versions = 3`; so after more than three successful
cycles the restored count is 3, not the true number of completed trainings. -/
theorem c10_restored_training_count_capped (calls : List SaveCall) (st : SchedState)
    (h : 3 < calls.length) :
    (init_scheduler_restore (foldSaves (vmInit 3) calls) st).training_count = 3 ∧
    (init_scheduler_restore (foldSaves (vmInit 3) calls) st).training_count
      ≠ calls.length := by
  have hlen : (foldSaves (vmInit 3) calls).versions.length = 3 := by
    have hmm := (foldSaves_versions_length calls (vmInit 3) (by simp [vmInit])).1
    have hv : (vmInit 3).versions.length = 0 := rfl
    have hm : (vmInit 3).max_versions = 3 := rfl
    rw [hv, hm] at hmm
    omega
  cases hvs : (foldSaves (vmInit 3) calls).versions with
  | nil => rw [hvs] at hlen; simp at hlen
  | cons v vs =>
    have hcount : (init_scheduler_restore (foldSaves (vmInit 3) calls) st).training_count
        = (v :: vs).length := by
      simp [init_scheduler_restore, get_latest_version, list_versions, hvs]
    rw [hvs] at hlen
    exact ⟨by rw [hcount, hlen], by rw [hcount, hlen]; omega⟩

theorem c10_witness :
    (init_scheduler_restore
        (foldSaves (vmInit 3)
          [⟨0, [], []⟩, ⟨1000000, [], []⟩, ⟨2000000, [], []⟩, ⟨3000000, [], []⟩])
        ⟨true, true, none, 0⟩).training_count = 3 ∧
    (init_scheduler_restore
        (foldSaves (vmInit 3)
          [⟨0, [], []⟩, ⟨1000000, [], []⟩, ⟨2000000, [], []⟩, ⟨3000000, [], []⟩])
        ⟨true, true, none, 0⟩).training_count ≠ 4 :=
  c10_restored_training_count_capped
    [⟨0, [], []⟩, ⟨1000000, [], []⟩, ⟨2000000, [], []⟩, ⟨3000000, [], []⟩]
    ⟨true, true, none, 0⟩ (by decide)

/-! ## Sorting and filesystem lemmas for the version manager -/

theorem perm_insertByTsDesc (m : VersionMeta) (l : List VersionMeta) :
    (insertByTsDesc m l).Perm (m :: l) := by
  induction l with
  | nil => exact List.Perm.refl _
  | cons x xs ih =>
    by_cases h : m.timestamp < x.timestamp
    · simp only [insertByTsDesc, if_pos h]
      exact (List.Perm.cons x ih).trans (List.Perm.swap m x xs)
    · simp only [insertByTsDesc, if_neg h]
      exact List.Perm.refl _

theorem perm_sortByTsDesc (l : List VersionMeta) : (sortByTsDesc l).Perm l := by
  induction l with
  | nil => exact List.Perm.refl _
  | cons x xs ih =>
    exact (perm_insertByTsDesc x (sortByTsDesc xs)).trans (List.Perm.cons x ih)

theorem pairwise_insertByTsDesc (m : VersionMeta) (l : List VersionMeta)
    (h : l.Pairwise (fun a b => b.timestamp ≤ a.timestamp)) :
    (insertByTsDesc m l).Pairwise (fun a b => b.timestamp ≤ a.timestamp) := by
  induction l with
  | nil => simp [insertByTsDesc]
  | cons x xs ih =>
    rcases List.pairwise_cons.mp h with ⟨hx, hxs⟩
    by_cases hlt : m.timestamp < x.timestamp
    · simp only [insertByTsDesc, if_pos hlt]
      refine List.pairwise_cons.mpr ⟨?_, ih hxs⟩
      intro y hy
      rcases List.mem_cons.mp ((perm_insertByTsDesc m xs).mem_iff.mp hy) with rfl | hy'
      · exact Nat.le_of_lt hlt
      · exact hx y hy'
    · simp only [insertByTsDesc, if_neg hlt]
      refine List.pairwise_cons.mpr ⟨?_, h⟩
      intro y hy
      rcases List.mem_cons.mp hy with rfl | hy'
      · exact Nat.le_of_not_lt hlt
      · exact le_trans (hx y hy') (Nat.le_of_not_lt hlt)

theorem pairwise_sortByTsDesc (l : List VersionMeta) :
    (sortByTsDesc l).Pairwise (fun a b => b.timestamp ≤ a.timestamp) := by
  induction l with
  | nil => simp [sortByTsDesc]
  | cons x xs ih => exact pairwise_insertByTsDesc x _ ih

theorem mem_mkdirDir_iff (fs : List Nat) (d x : Nat) :
    x ∈ mkdirDir fs d ↔ x = d ∨ x ∈ fs := by
  unfold mkdirDir
  by_cases h : d ∈ fs
  · simp only [if_pos h]
    constructor
    · exact fun hx => Or.inr hx
    · rintro (rfl | hx)
      · exact h
      · exact hx
  · simp only [if_neg h]
    exact List.mem_cons

theorem mem_foldl_rmtree (x : Nat) (l : List VersionMeta) :
    ∀ fs : List Nat, x ∈ l.foldl (fun fs old => rmtreeDir fs old.dir) fs → x ∈ fs := by
  induction l with
  | nil => exact fun fs h => h
  | cons a l' ih =>
    intro fs h
    exact List.mem_of_mem_filter (ih (rmtreeDir fs a.dir) h)

theorem mem_foldl_rmtree_of_ne (x : Nat) (l : List VersionMeta) :
    ∀ fs : List Nat, x ∈ fs → (∀ e ∈ l, x ≠ e.dir) →
      x ∈ l.foldl (fun fs old => rmtreeDir fs old.dir) fs := by
  induction l with
  | nil => exact fun fs hx _ => hx
  | cons a l' ih =>
    intro fs hx hne
    refine ih (rmtreeDir fs a.dir) ?_ ?_
    · exact List.mem_filter.mpr
        ⟨hx, decide_eq_true (hne a (List.mem_cons_self a l'))⟩
    · exact fun e he => hne e (List.mem_cons_of_mem a he)

theorem not_mem_foldl_rmtree_self (l : List VersionMeta) :
    ∀ (fs : List Nat) (e : VersionMeta), e ∈ l →
      e.dir ∉ l.foldl (fun fs old => rmtreeDir fs old.dir) fs := by
  induction l with
  | nil =>
    intro fs e he
    exact absurd he (List.not_mem_nil e)
  | cons a l' ih =>
    intro fs e he
    rcases List.mem_cons.mp he with rfl | he'
    · intro hmem
      have hin : e.dir ∈ rmtreeDir fs e.dir := mem_foldl_rmtree e.dir l' _ hmem
      have hne := (List.mem_filter.mp hin).2
      simp at hne
    · exact ih _ e he'

theorem save_new_version_good (st : VMState) (c : SaveCall)
    (hgood : vmGood st)
    (hfresh : versionIdOf c.ts ∉ st.versions.map (fun v => v.dir)) :
    vmGood (save_new_version st c.ts c.metrics c.training_info).1 ∧
    ∀ v ∈ (save_new_version st c.ts c.metrics c.training_info).1.versions,
      v.dir = versionIdOf c.ts ∨ v.dir ∈ st.versions.map (fun v => v.dir) := by
  obtain ⟨h1, h2, h3, h4, h5⟩ := hgood
  unfold vmGood
  simp only [save_new_version]
  set vm : VersionMeta :=
    ⟨versionIdOf c.ts, c.ts, versionIdOf c.ts, c.metrics, c.training_info⟩ with hvm
  set S := sortByTsDesc (st.versions ++ [vm]) with hS
  have hperm : S.Perm (st.versions ++ [vm]) := perm_sortByTsDesc _
  have hmemS : ∀ x, x ∈ S ↔ x ∈ st.versions ∨ x = vm := by
    intro x
    rw [hperm.mem_iff, List.mem_append, List.mem_singleton]
  have hlenS : S.length = st.versions.length + 1 := by
    rw [hperm.length_eq, List.length_append, List.length_singleton]
  have hsortS : S.Pairwise (fun a b => b.timestamp ≤ a.timestamp) :=
    pairwise_sortByTsDesc _
  have hvmdir : vm.dir = versionIdOf c.ts := by rw [hvm]
  have hvmid : vm.dir = versionIdOf vm.timestamp := by rw [hvm]
  have hmapS : (S.map (fun v => v.dir)).Perm
      (st.versions.map (fun v => v.dir) ++ [vm.dir]) := by
    have hh := hperm.map (fun v => v.dir)
    simpa using hh
  have hnodupS : (S.map (fun v => v.dir)).Nodup := by
    rw [hmapS.nodup_iff, List.nodup_append]
    refine ⟨h3, List.nodup_singleton _, ?_⟩
    intro a ha hb
    rw [List.mem_singleton] at hb
    subst hb
    rw [hvmdir] at ha
    exact hfresh ha
  have hdirS : ∀ v ∈ S, v.dir = versionIdOf v.timestamp := by
    intro v hv
    rcases (hmemS v).mp hv with hv' | rfl
    · exact (h4 v hv').1
    · exact hvmid
  have hdirS2 : ∀ v ∈ S, v.dir = versionIdOf c.ts ∨
      v.dir ∈ st.versions.map (fun w => w.dir) := by
    intro v hv
    rcases (hmemS v).mp hv with hv' | rfl
    · exact Or.inr (List.mem_map_of_mem _ hv')
    · exact Or.inl hvmdir
  have hdirFs : ∀ v ∈ S, v.dir ∈ mkdirDir st.fsDirs (versionIdOf c.ts) := by
    intro v hv
    rcases (hmemS v).mp hv with hv' | rfl
    · exact (mem_mkdirDir_iff _ _ _).mpr (Or.inr (h4 v hv').2)
    · exact (mem_mkdirDir_iff _ _ _).mpr (Or.inl hvmdir)
  by_cases hcap : st.max_versions < S.length
  · simp only [if_pos hcap]
    have hsplit : S.take st.max_versions ++ S.drop st.max_versions = S :=
      List.take_append_drop _ _
    have hdisj : ∀ a ∈ (S.take st.max_versions).map (fun v => v.dir),
        a ∉ (S.drop st.max_versions).map (fun v => v.dir) := by
      have hnd := hnodupS
      rw [← hsplit, List.map_append, List.nodup_append] at hnd
      exact fun a ha hb => hnd.2.2 ha hb
    refine ⟨⟨?_, ?_, ?_, ?_, ?_⟩, ?_⟩
    · rw [List.length_take]
      omega
    · exact List.Pairwise.sublist (List.take_sublist _ _) hsortS
    · exact List.Nodup.sublist
        (List.Sublist.map (fun v : VersionMeta => v.dir) (List.take_sublist _ _)) hnodupS
    · intro v hv
      have hvS : v ∈ S := List.mem_of_mem_take hv
      refine ⟨hdirS v hvS, ?_⟩
      refine mem_foldl_rmtree_of_ne v.dir _ _ (hdirFs v hvS) ?_
      intro e he hne
      exact hdisj v.dir (List.mem_map_of_mem _ hv) (hne ▸ List.mem_map_of_mem _ he)
    · intro d hd
      have hd1 : d ∈ mkdirDir st.fsDirs (versionIdOf c.ts) :=
        mem_foldl_rmtree d (S.drop st.max_versions)
          (mkdirDir st.fsDirs (versionIdOf c.ts)) hd
      have hdS : ∃ v ∈ S, v.dir = d := by
        rcases (mem_mkdirDir_iff _ _ _).mp hd1 with rfl | hdfs
        · exact ⟨vm, (hmemS vm).mpr (Or.inr rfl), hvmdir⟩
        · rcases h5 d hdfs with ⟨v, hvL, hvd⟩
          exact ⟨v, (hmemS v).mpr (Or.inl hvL), hvd⟩
      rcases hdS with ⟨v, hvS, hvd⟩
      have hv2 : v ∈ S.take st.max_versions ∨ v ∈ S.drop st.max_versions := by
        rw [← List.mem_append, hsplit]
        exact hvS
      rcases hv2 with hv2 | hv2
      · exact ⟨v, hv2, hvd⟩
      · exfalso
        have := not_mem_foldl_rmtree_self (S.drop st.max_versions)
          (mkdirDir st.fsDirs (versionIdOf c.ts)) v hv2
        rw [hvd] at this
        exact this hd
    · intro v hv
      exact hdirS2 v (List.mem_of_mem_take hv)
  · simp only [if_neg hcap]
    refine ⟨⟨?_, ?_, ?_, ?_, ?_⟩, ?_⟩
    · omega
    · exact hsortS
    · exact hnodupS
    · exact fun v hv => ⟨hdirS v hv, hdirFs v hv⟩
    · intro d hd
      rcases (mem_mkdirDir_iff _ _ _).mp hd with rfl | hdfs
      · exact ⟨vm, (hmemS vm).mpr (Or.inr rfl), hvmdir⟩
      · rcases h5 d hdfs with ⟨v, hvL, hvd⟩
        exact ⟨v, (hmemS v).mpr (Or.inl hvL), hvd⟩
    · exact hdirS2

theorem foldSaves_good (calls : List SaveCall) (maxV : Nat) :
    (calls.map (fun c => versionIdOf c.ts)).Nodup →
    vmGood (foldSaves (vmInit maxV) calls) ∧
    ∀ v ∈ (foldSaves (vmInit maxV) calls).versions,
      v.dir ∈ calls.map (fun c => versionIdOf c.ts) := by
  induction calls using List.reverseRecOn with
  | nil =>
    intro _
    constructor
    · simp [vmGood, vmInit, foldSaves]
    · simp [foldSaves, vmInit]
  | append_singleton l c ih =>
    intro hnd
    have hmap : (l ++ [c]).map (fun c => versionIdOf c.ts)
        = l.map (fun c => versionIdOf c.ts) ++ [versionIdOf c.ts] := by simp
    rw [hmap] at hnd
    rcases List.nodup_append.mp hnd with ⟨hndl, _, hdisj⟩
    have hfreshL : versionIdOf c.ts ∉ l.map (fun c => versionIdOf c.ts) := by
      intro hmem
      exact hdisj hmem (by simp)
    obtain ⟨ihg, ihsub⟩ := ih hndl
    have hfold : foldSaves (vmInit maxV) (l ++ [c])
        = (save_new_version (foldSaves (vmInit maxV) l) c.ts c.metrics
            c.training_info).1 := by
      simp [foldSaves, List.foldl_append]
    have hfresh : versionIdOf c.ts
        ∉ (foldSaves (vmInit maxV) l).versions.map (fun v => v.dir) := by
      intro hmem
      rcases List.mem_map.mp hmem with ⟨v, hv, hvd⟩
      have hin := ihsub v hv
      rw [hvd] at hin
      exact hfreshL hin
    obtain ⟨hg, hsub⟩ :=
      save_new_version_good (foldSaves (vmInit maxV) l) c ihg hfresh
    rw [hfold]
    refine ⟨hg, ?_⟩
    intro v hv
    rw [hmap]
    rcases hsub v hv with h | h
    · exact List.mem_append.mpr (Or.inr (by simp [h]))
    · refine List.mem_append.mpr (Or.inl ?_)
      rcases List.mem_map.mp h with ⟨w, hw, hwd⟩
      exact hwd ▸ ihsub w hw

/-- C5 (counterexample): the claim fails for calls whose timestamps fall in
the same second: four successful saves at microsecond timestamps 0, 1, 2, 3
(all within second 0) share the version directory `v_0`; pruning the fourth
entry deletes that shared directory, so all three retained versions' backing
artifact directories no longer exist. -/
theorem c5_counterexample :
    ((foldSaves (vmInit 3)
        [⟨0, [], []⟩, ⟨1, [], []⟩, ⟨2, [], []⟩, ⟨3, [], []⟩]).versions.map
      (fun v => v.dir)) = [0, 0, 0] ∧
    (foldSaves (vmInit 3)
        [⟨0, [], []⟩, ⟨1, [], []⟩, ⟨2, [], []⟩, ⟨3, [], []⟩]).fsDirs = [] ∧
    ∃ v ∈ (foldSaves (vmInit 3)
        [⟨0, [], []⟩, ⟨1, [], []⟩, ⟨2, [], []⟩, ⟨3, [], []⟩]).versions,
      v.dir ∉ (foldSaves (vmInit 3)
        [⟨0, [], []⟩, ⟨1, [], []⟩, ⟨2, [], []⟩, ⟨3, [], []⟩]).fsDirs := by
  decide

/-- C5 (amended): provided no two save calls share a second-granularity
version id, after every prefix of a sequence of successful
`save_new_version` calls the stored list has length at most `max_versions`,
is sorted descending by timestamp, every retained version's backing
directory exists, and every evicted version's backing directory has been
deleted.  (Without the proviso calls in the same second share a version
directory and pruning deletes retained versions' artifacts.) -/
theorem c5_amended_retention_invariant (calls : List SaveCall) (maxV n : Nat)
    (hnodup : (calls.map (fun c => versionIdOf c.ts)).Nodup) :
    (foldSaves (vmInit maxV) (calls.take n)).versions.length ≤ maxV ∧
    (foldSaves (vmInit maxV) (calls.take n)).versions.Pairwise
      (fun a b => b.timestamp ≤ a.timestamp) ∧
    (∀ v ∈ (foldSaves (vmInit maxV) (calls.take n)).versions,
      v.dir ∈ (foldSaves (vmInit maxV) (calls.take n)).fsDirs) ∧
    (∀ c ∈ calls.take n,
      versionIdOf c.ts ∉ (foldSaves (vmInit maxV) (calls.take n)).versions.map
        (fun v => v.dir) →
      versionIdOf c.ts ∉ (foldSaves (vmInit maxV) (calls.take n)).fsDirs) := by
  have hsub : ((calls.take n).map (fun c => versionIdOf c.ts)).Nodup := by
    have hsublist : List.Sublist ((calls.take n).map (fun c => versionIdOf c.ts))
        (calls.map (fun c => versionIdOf c.ts)) :=
      List.Sublist.map _ (List.take_sublist n calls)
    exact List.Nodup.sublist hsublist hnodup
  obtain ⟨⟨hlen, hsort, hnodupd, hdirs, hfs⟩, _⟩ :=
    foldSaves_good (calls.take n) maxV hsub
  have hmax : (foldSaves (vmInit maxV) (calls.take n)).max_versions = maxV :=
    (foldSaves_versions_length (calls.take n) (vmInit maxV) (by simp [vmInit])).2
  refine ⟨?_, hsort, ?_, ?_⟩
  · rw [hmax] at hlen; exact hlen
  · exact fun v hv => (hdirs v hv).2
  · intro c _ hnotin hin
    rcases hfs _ hin with ⟨v, hv, hvd⟩
    exact hnotin (hvd ▸ List.mem_map_of_mem _ hv)

theorem c5_witness :
    (foldSaves (vmInit 3)
        ([⟨0, [], []⟩, ⟨1000000, [], []⟩, ⟨2000000, [], []⟩,
          ⟨4000000, [], []⟩].take 4)).versions.length ≤ 3 ∧
    versionIdOf 0 ∉ (foldSaves (vmInit 3)
        ([⟨0, [], []⟩, ⟨1000000, [], []⟩, ⟨2000000, [], []⟩,
          ⟨4000000, [], []⟩].take 4)).fsDirs := by
  have hthm := c5_amended_retention_invariant
      [⟨0, [], []⟩, ⟨1000000, [], []⟩, ⟨2000000, [], []⟩, ⟨4000000, [], []⟩] 3 4
      (by decide)
  refine ⟨hthm.1, ?_⟩
  exact hthm.2.2.2 ⟨0, [], []⟩ (by decide) (by decide)
